import Mathlib

/-!
Verification of the learning-rate schedule functions and the `BERTAdam`
optimizer of `ReNER/tools/pytorch_optimization.py`, shallowly embedded over
the real numbers (the Python code computes with floats; we model the ideal
real-valued arithmetic it denotes).  Scalar parameters model single-element
tensors; lists of parameter entries model parameter groups.
-/

namespace PytorchOptimization

/-- `warmup_cosine(x, warmup)`: `x/warmup` below `warmup`, else
`0.5*(1.0 + cos(pi*x))`. -/
noncomputable def warmup_cosine (x : ℝ) (warmup : ℝ := 0.002) : ℝ :=
  if x < warmup then x / warmup
  else 0.5 * (1.0 + Real.cos (Real.pi * x))

/-- `warmup_constant(x, warmup)`: `x/warmup` below `warmup`, else `1.0`. -/
noncomputable def warmup_constant (x : ℝ) (warmup : ℝ := 0.002) : ℝ :=
  if x < warmup then x / warmup
  else 1.0

/-- `warmup_linear(x, warmup)`: `x/warmup` below `warmup`, else
`(1.0 - x)/(1.0 - warmup)`. -/
noncomputable def warmup_linear (x : ℝ) (warmup : ℝ := 0.002) : ℝ :=
  if x < warmup then x / warmup
  else (1.0 - x) / (1.0 - warmup)

/-- `warmup_fix(step, warmup_step) = min(1.0, step / warmup_step)`. -/
noncomputable def warmup_fix (step : ℝ) (warmup_step : ℝ) : ℝ :=
  min 1.0 (step / warmup_step)

/-- The `SCHEDULES` lookup table, as a partial map from schedule names to
binary schedule functions. -/
noncomputable def SCHEDULES : String → Option (ℝ → ℝ → ℝ)
  | "warmup_cosine" => some (fun x w => warmup_cosine x w)
  | "warmup_constant" => some (fun x w => warmup_constant x w)
  | "warmup_linear" => some (fun x w => warmup_linear x w)
  | "warmup_fix" => some (fun s ws => warmup_fix s ws)
  | _ => none

/-- Structured form of the `ValueError`s raised by `BERTAdam.__init__`;
each constructor carries the offending value named in the error message. -/
inductive InitError : Type
  | invalidLr (lr : ℝ)
  | invalidSchedule (schedule : String)
  | invalidWarmup (warmup : ℝ)
  | invalidB1 (b1 : ℝ)
  | invalidB2 (b2 : ℝ)
  | invalidEps (e : ℝ)

/-- The hyperparameter checks of `BERTAdam.__init__` after the learning-rate
check, in source order. -/
noncomputable def bertAdamCheckRest (schedule : String) (warmup b1 b2 e : ℝ) :
    Except InitError Unit :=
  if (SCHEDULES schedule).isNone then .error (.invalidSchedule schedule)
  else if ¬ (0.0 ≤ warmup ∧ warmup < 1.0) ∧ ¬ (warmup = -1) then
    .error (.invalidWarmup warmup)
  else if ¬ (0.0 ≤ b1 ∧ b1 < 1.0) then .error (.invalidB1 b1)
  else if ¬ (0.0 ≤ b2 ∧ b2 < 1.0) then .error (.invalidB2 b2)
  else if ¬ e ≥ 0.0 then .error (.invalidEps e)
  else .ok ()

/-- The hyperparameter validation of `BERTAdam.__init__`: the learning rate
is checked first (skipped when `lr is None`), then the remaining checks in
source order. -/
noncomputable def bertAdamCheck (lr : Option ℝ) (schedule : String)
    (warmup b1 b2 e : ℝ) : Except InitError Unit :=
  match lr with
  | some l =>
    if ¬ l ≥ 0.0 then .error (.invalidLr l)
    else bertAdamCheckRest schedule warmup b1 b2 e
  | none => bertAdamCheckRest schedule warmup b1 b2 e

/-- Hyperparameters of one parameter group (the `defaults` dict of
`BERTAdam.__init__`).  `cycle_step = none` models Python `None`. -/
structure GroupHyper where
  lr : ℝ
  schedule : String
  warmup : ℝ
  t_total : ℝ
  b1 : ℝ
  b2 : ℝ
  e : ℝ
  weight_decay_rate : ℝ
  max_grad_norm : ℝ
  cycle_step : Option ℕ

/-- A gradient tensor (scalar model): its value and its sparsity flag. -/
structure Grad where
  value : ℝ
  is_sparse : Bool

/-- Per-parameter optimizer state `self.state[p]`:
`{step, next_m, next_v}`. -/
structure PState where
  step : ℕ
  next_m : ℝ
  next_v : ℝ

/-- A parameter together with its (possibly absent) gradient and its
(lazily initialized, hence possibly absent) optimizer state. -/
structure ParamEntry where
  data : ℝ
  grad : Option Grad
  pstate : Option PState

/-- Scalar model of `torch.nn.utils.clip_grad_norm_` (external library
call in `BERTAdam.step`): with total norm `|g|`, scale the gradient by
`max_norm / (|g| + 1e-6)` when that coefficient is below 1. -/
noncomputable def clip_grad_norm (max_norm g : ℝ) : ℝ :=
  let coef := max_norm / (|g| + 1e-6)
  if coef < 1 then g * coef else g

/-- The `elif` chain of `BERTAdam.step` computing `lr_scheduled` when the
leading `cycle_step` condition does not fire. -/
noncomputable def lrSchedNoCycle (g : GroupHyper) (step : ℕ) : ℝ :=
  if g.t_total ≠ -1 ∧ g.schedule ≠ "warmup_fix" then
    g.lr * ((SCHEDULES g.schedule).getD (fun _ _ => 0))
      ((step : ℝ) / g.t_total) g.warmup
  else if g.schedule = "warmup_fix" then
    g.lr * warmup_fix (step : ℝ) (g.warmup * g.t_total)
  else g.lr

/-- `lr_scheduled` in `BERTAdam.step`: the cyclical branch fires when
`cycle_step` is set and `state.step > cycle_step`; otherwise the
`elif` chain decides. -/
noncomputable def lrScheduled (g : GroupHyper) (step : ℕ) : ℝ :=
  match g.cycle_step with
  | some c =>
    if step > c then g.lr * (1 - ((step % c : ℕ) : ℝ) / (c : ℝ))
    else lrSchedNoCycle g step
  | none => lrSchedNoCycle g step

/-- The sparse-gradient `RuntimeError` message of `BERTAdam.step`. -/
def sparseMsg : String :=
  "Adam does not support sparse gradients, please consider SparseAdam instead"

/-- The body of `BERTAdam.step` for one parameter: skip when the gradient is
absent, raise on a sparse gradient, otherwise lazily initialize state, clip
the gradient when `max_grad_norm > 0`, update the moments, form the update
(plus decoupled weight decay when `weight_decay_rate > 0`), apply
`lr_scheduled` from the pre-increment step counter, and increment `step`. -/
noncomputable def stepParam (g : GroupHyper) (p : ParamEntry) :
    Except String ParamEntry :=
  match p.grad with
  | none => .ok p
  | some gr =>
    if gr.is_sparse then .error sparseMsg
    else
      let st := p.pstate.getD { step := 0, next_m := 0, next_v := 0 }
      let grad := if g.max_grad_norm > 0 then clip_grad_norm g.max_grad_norm gr.value
                  else gr.value
      let next_m := g.b1 * st.next_m + (1 - g.b1) * grad
      let next_v := g.b2 * st.next_v + (1 - g.b2) * (grad * grad)
      let update := next_m / (Real.sqrt next_v + g.e)
      let update2 := if g.weight_decay_rate > 0.0 then
                       update + g.weight_decay_rate * p.data
                     else update
      .ok { data := p.data - lrScheduled g st.step * update2,
            grad := some { value := grad, is_sparse := gr.is_sparse },
            pstate := some { step := st.step + 1, next_m := next_m, next_v := next_v } }

/-- The inner loop of `BERTAdam.step` over one group's parameters: a raised
error aborts the loop, leaving the raising parameter and all later ones
untouched, while earlier updates persist (in-place mutation). -/
noncomputable def stepList (g : GroupHyper) :
    List ParamEntry → List ParamEntry × Option String
  | [] => ([], none)
  | p :: ps =>
    match stepParam g p with
    | .error msg => (p :: ps, some msg)
    | .ok p' => (p' :: (stepList g ps).1, (stepList g ps).2)

/-- One parameter group: its hyperparameters and its parameters. -/
structure GroupData where
  hyper : GroupHyper
  entries : List ParamEntry

/-- The outer loop of `BERTAdam.step` over `self.param_groups`: an error in
one group aborts the remaining groups. -/
noncomputable def stepGroups : List GroupData → List GroupData × Option String
  | [] => ([], none)
  | g :: gs =>
    match (stepList g.hyper g.entries).2 with
    | some msg => ({ g with entries := (stepList g.hyper g.entries).1 } :: gs, some msg)
    | none =>
      ({ g with entries := (stepList g.hyper g.entries).1 } :: (stepGroups gs).1,
       (stepGroups gs).2)

/-- The `no_decay` name list of `get_optimization`. -/
def no_decay : List String := ["bias", "LayerNorm.bias", "LayerNorm.weight"]

/-- Python's `nd in n` substring test, on character lists. -/
def hasSub (n nd : String) : Bool := decide (nd.data <:+: n.data)

/-- `any([nd in n for nd in no_decay])` of `get_optimization`. -/
def noDecayMatch (n : String) : Bool := no_decay.any (fun nd => hasSub n nd)

/-- The parameter-group construction of `get_optimization`: optionally drop
`pooler` parameters, then build exactly two groups — non-matching names with
the given `weight_decay_rate`, matching names with `weight_decay_rate` 0. -/
noncomputable def get_optimization_groups {α : Type} (named : List (String × α))
    (weight_decay_rate : ℝ) (opt_pooler : Bool) : List (List (String × α) × ℝ) :=
  let param_optimizer :=
    if opt_pooler = false then named.filter (fun np => ! hasSub np.1 "pooler")
    else named
  [ (param_optimizer.filter (fun np => ! noDecayMatch np.1), weight_decay_rate),
    (param_optimizer.filter (fun np => noDecayMatch np.1), 0.0) ]

/-- The step counter of a parameter entry (0 before lazy initialization). -/
def entryStep (p : ParamEntry) : ℕ :=
  match p.pstate with
  | none => 0
  | some st => st.step

/-- A parameter group using the `warmup_fix` schedule with `t_total` left at
its default `-1` and no `cycle_step`. -/
noncomputable def fixDefaultHyper (lr warmup b1 b2 e wd mgn : ℝ) : GroupHyper :=
  { lr := lr, schedule := "warmup_fix", warmup := warmup, t_total := -1,
    b1 := b1, b2 := b2, e := e, weight_decay_rate := wd,
    max_grad_norm := mgn, cycle_step := none }

/-- A fresh scalar parameter with a dense gradient of value 1. -/
noncomputable def demoEntry : ParamEntry :=
  { data := 0, grad := some { value := 1, is_sparse := false }, pstate := none }

/-- A one-parameter group around `demoEntry`. -/
noncomputable def demoGroup : GroupData :=
  { hyper := fixDefaultHyper 1 (1/2) 0.9 0.999 1e-6 0 (-1),
    entries := [demoEntry] }

/-- C4: for every `warmup ∈ (0,1)` and every `x ∈ [0, warmup)`, each of
`warmup_cosine`, `warmup_constant` and `warmup_linear` returns `x/warmup`
(and `warmup_fix step ws = step/ws` for `step < ws`, `ws > 0`); moreover
`warmup_constant x warmup = 1` for `x ≥ warmup`,
`warmup_linear warmup warmup = 1`, and `warmup_cosine 1 warmup = 0`. -/
theorem schedule_warmup_region (warmup : ℝ) (hw0 : 0 < warmup) (hw1 : warmup < 1) :
    (∀ x : ℝ, 0 ≤ x → x < warmup →
      warmup_cosine x warmup = x / warmup ∧
      warmup_constant x warmup = x / warmup ∧
      warmup_linear x warmup = x / warmup) ∧
    (∀ step warmup_step : ℝ, 0 < warmup_step → step < warmup_step →
      warmup_fix step warmup_step = step / warmup_step) ∧
    (∀ x : ℝ, warmup ≤ x → warmup_constant x warmup = 1.0) ∧
    warmup_linear warmup warmup = 1.0 ∧
    warmup_cosine 1.0 warmup = 0.0 := by
  refine ⟨fun x _ hx => ?_, fun s ws hws hs => ?_, fun x hx => ?_, ?_, ?_⟩
  · exact ⟨if_pos hx, if_pos hx, if_pos hx⟩
  · have h1 : s / ws ≤ (1.0 : ℝ) := by
      norm_num
      exact le_of_lt ((div_lt_one hws).mpr hs)
    exact min_eq_right h1
  · exact if_neg (not_lt.mpr hx)
  · rw [warmup_linear, if_neg (lt_irrefl warmup)]
    have hne : (1.0 : ℝ) - warmup ≠ 0 := by
      have h1 : (1.0 : ℝ) ≠ warmup := by
        norm_num
        exact hw1.ne'
      exact sub_ne_zero.mpr h1
    rw [div_self hne]
    norm_num
  · have h0 : ¬ ((1.0 : ℝ) < warmup) := by
      norm_num
      linarith
    rw [warmup_cosine, if_neg h0]
    norm_num [Real.cos_pi]

/-- Witness for `schedule_warmup_region` at `warmup = 1/2`, `x = 3/4`. -/
theorem schedule_warmup_region_witness :
    warmup_constant (3/4 : ℝ) (1/2) = 1.0 :=
  (schedule_warmup_region (1/2) (by norm_num) (by norm_num)).2.2.1 (3/4) (by norm_num)

/-- C5 counterexample: `warmup_linear` at progress `x = 2` with
`warmup = 1/2 ∈ (0,1)` and `x ≥ 0` returns `-2`, which is not in `[0,1]`,
refuting the claim that every schedule returns a multiplier in `[0,1]` for
every `x ≥ 0`. -/
theorem schedule_range_counterexample :
    (0 : ℝ) < 1/2 ∧ (1/2 : ℝ) < 1 ∧ (0 : ℝ) ≤ 2 ∧
    warmup_linear 2 (1/2) = -2 ∧ ¬ (0 ≤ warmup_linear 2 (1/2)) := by
  have h : warmup_linear 2 (1/2) = -2 := by
    rw [warmup_linear, if_neg (by norm_num)]
    norm_num
  exact ⟨by norm_num, by norm_num, by norm_num, h, by rw [h]; norm_num⟩

/-- C5 (amended): for every `warmup ∈ (0,1)` and every progress `x ∈ [0,1]`,
`warmup_cosine`, `warmup_constant` and `warmup_linear` return a multiplier
in `[0,1]`; and for every `step ≥ 0` and `warmup_step > 0`, `warmup_fix`
returns a multiplier in `[0,1]`. -/
theorem schedule_range (warmup : ℝ) (hw0 : 0 < warmup) (hw1 : warmup < 1) :
    (∀ x : ℝ, 0 ≤ x → x ≤ 1 →
      (0 ≤ warmup_cosine x warmup ∧ warmup_cosine x warmup ≤ 1) ∧
      (0 ≤ warmup_constant x warmup ∧ warmup_constant x warmup ≤ 1) ∧
      (0 ≤ warmup_linear x warmup ∧ warmup_linear x warmup ≤ 1)) ∧
    (∀ step warmup_step : ℝ, 0 ≤ step → 0 < warmup_step →
      0 ≤ warmup_fix step warmup_step ∧ warmup_fix step warmup_step ≤ 1) := by
  constructor
  · intro x hx0 hx1
    have hdiv : 0 ≤ x / warmup ∧ x / warmup ≤ 1 ∨ warmup ≤ x := by
      rcases lt_or_le x warmup with h | h
      · exact Or.inl ⟨div_nonneg hx0 hw0.le, ((div_le_one hw0).mpr h.le)⟩
      · exact Or.inr h
    refine ⟨?_, ?_, ?_⟩
    · rw [warmup_cosine]
      split
      · exact ⟨div_nonneg hx0 hw0.le, (div_le_one hw0).mpr (by linarith)⟩
      · have h1 := Real.neg_one_le_cos (Real.pi * x)
        have h2 := Real.cos_le_one (Real.pi * x)
        constructor <;> nlinarith
    · rw [warmup_constant]
      split
      · exact ⟨div_nonneg hx0 hw0.le, (div_le_one hw0).mpr (by linarith)⟩
      · norm_num
    · rw [warmup_linear]
      split
      · exact ⟨div_nonneg hx0 hw0.le, (div_le_one hw0).mpr (by linarith)⟩
      · rename_i h
        have hwx : warmup ≤ x := not_lt.mp h
        exact ⟨div_nonneg (by linarith) (by linarith),
          (div_le_one (by linarith)).mpr (by linarith)⟩
  · intro s ws hs hws
    refine ⟨le_min (by norm_num) (div_nonneg hs hws.le), ?_⟩
    have h1 := min_le_left (1.0 : ℝ) (s / ws)
    rw [warmup_fix]
    linarith

/-- Witness for `schedule_range` at `warmup = 1/2`, `x = 3/4`. -/
theorem schedule_range_witness :
    0 ≤ warmup_linear (3/4 : ℝ) (1/2) ∧ warmup_linear (3/4 : ℝ) (1/2) ≤ 1 :=
  ((schedule_range (1/2) (by norm_num) (by norm_num)).1 (3/4)
    (by norm_num) (by norm_num)).2.2

/-- C8: for every `warmup_step > 0`, `warmup_fix` is non-decreasing in
`step` and equals `1` once `step ≥ warmup_step`. -/
theorem warmup_fix_monotone_clamp (warmup_step : ℝ) (hws : 0 < warmup_step) :
    (∀ s1 s2 : ℝ, s1 ≤ s2 →
      warmup_fix s1 warmup_step ≤ warmup_fix s2 warmup_step) ∧
    (∀ s : ℝ, warmup_step ≤ s → warmup_fix s warmup_step = 1.0) := by
  constructor
  · intro s1 s2 h
    exact min_le_min le_rfl ((div_le_div_iff_of_pos_right hws).mpr h)
  · intro s h
    have h1 : (1.0 : ℝ) ≤ s / warmup_step := by
      norm_num
      exact (one_le_div hws).mpr h
    exact min_eq_left h1

/-- Witness for `warmup_fix_monotone_clamp` at `warmup_step = 2`, steps 1, 5. -/
theorem warmup_fix_monotone_clamp_witness :
    warmup_fix (1 : ℝ) 2 ≤ warmup_fix (5 : ℝ) 2 ∧ warmup_fix (5 : ℝ) 2 = 1.0 :=
  ⟨(warmup_fix_monotone_clamp 2 (by norm_num)).1 1 5 (by norm_num),
   (warmup_fix_monotone_clamp 2 (by norm_num)).2 5 (by norm_num)⟩

/-- C2: the effective learning rate follows the priority-ordered rule of
`BERTAdam.step`: the cyclical branch when `cycle_step` is set and
`step > cycle_step`; else the schedule lookup when `t_total ≠ -1` and the
schedule is not `warmup_fix`; else the `warmup_fix` branch; else plain `lr`.
In particular `cycle_step = 100`, `lr = 1`, `step = 150` yields `0.5`. -/
theorem lrScheduled_priority (g : GroupHyper) (step : ℕ) :
    (∀ c : ℕ, g.cycle_step = some c → c < step →
      lrScheduled g step = g.lr * (1 - ((step % c : ℕ) : ℝ) / (c : ℝ))) ∧
    ((∀ c : ℕ, g.cycle_step = some c → step ≤ c) →
      ((g.t_total ≠ -1 → g.schedule ≠ "warmup_fix" →
        lrScheduled g step = g.lr * ((SCHEDULES g.schedule).getD (fun _ _ => 0))
          ((step : ℝ) / g.t_total) g.warmup) ∧
       (g.schedule = "warmup_fix" →
        lrScheduled g step = g.lr * warmup_fix (step : ℝ) (g.warmup * g.t_total)) ∧
       (g.t_total = -1 → g.schedule ≠ "warmup_fix" → lrScheduled g step = g.lr))) ∧
    (g.cycle_step = some 100 → g.lr = 1 → step = 150 → lrScheduled g step = 0.5) := by
  have hnc : ∀ h : (∀ c : ℕ, g.cycle_step = some c → step ≤ c),
      lrScheduled g step = lrSchedNoCycle g step := by
    intro h
    rw [lrScheduled]
    cases hc : g.cycle_step with
    | none => rfl
    | some c => exact if_neg (not_lt.mpr (h c hc))
  refine ⟨fun c hc hlt => ?_, fun h => ⟨fun ht hsch => ?_, fun hsch => ?_,
    fun ht hsch => ?_⟩, fun hc hl hs => ?_⟩
  · rw [lrScheduled, hc]
    exact if_pos hlt
  · rw [hnc h, lrSchedNoCycle]
    exact if_pos ⟨ht, hsch⟩
  · rw [hnc h, lrSchedNoCycle, if_neg (fun hand => hand.2 hsch), if_pos hsch]
  · rw [hnc h, lrSchedNoCycle, if_neg (fun hand => hand.1 ht), if_neg hsch]
  · subst hs
    have hval : lrScheduled g 150 = g.lr * (1 - ((150 % 100 : ℕ) : ℝ) / (100 : ℝ)) := by
      rw [lrScheduled, hc]
      exact if_pos (by norm_num)
    rw [hval, hl]
    norm_num

/-- Witness for `lrScheduled_priority`: the cyclical branch at
`cycle_step = 100`, `lr = 1`, `step = 150` gives effective lr `0.5`. -/
theorem lrScheduled_priority_witness :
    lrScheduled
      { lr := 1, schedule := "warmup_linear", warmup := -1, t_total := -1,
        b1 := 0.9, b2 := 0.999, e := 1e-6, weight_decay_rate := 0.01,
        max_grad_norm := 1.0, cycle_step := some 100 } 150 = 0.5 :=
  (lrScheduled_priority _ 150).2.2 rfl rfl rfl

/-- C1: one update call on a fresh single scalar parameter with gradient
`g`, `weight_decay_rate = 0`, `max_grad_norm = -1`, `b1 = 0.9`,
`b2 = 0.999`, `e = 1e-6`, `t_total = -1`, no `cycle_step`: the new first
moment is `0.1*g`, the new second moment is `0.001*g^2`, the update is
`0.1*g / (sqrt(0.001*g^2) + 1e-6)`, and the new value is
`old - lr * update`. -/
theorem first_step_update (lr g old : ℝ) :
    stepParam
      { lr := lr, schedule := "warmup_linear", warmup := -1, t_total := -1,
        b1 := 0.9, b2 := 0.999, e := 1e-6, weight_decay_rate := 0,
        max_grad_norm := -1, cycle_step := none }
      { data := old, grad := some { value := g, is_sparse := false },
        pstate := none } =
    .ok { data := old - lr * (0.1 * g / (Real.sqrt (0.001 * g ^ 2) + 1e-6)),
          grad := some { value := g, is_sparse := false },
          pstate := some { step := 1, next_m := 0.1 * g,
                           next_v := 0.001 * g ^ 2 } } := by
  rw [stepParam]
  simp only [Option.getD_some, Option.getD_none]
  rw [if_neg (by norm_num), if_neg (by norm_num : ¬ ((-1 : ℝ) > 0)),
    if_neg (by norm_num : ¬ ((0 : ℝ) > 0.0))]
  have hlr : lrScheduled
      { lr := lr, schedule := "warmup_linear", warmup := -1, t_total := -1,
        b1 := 0.9, b2 := 0.999, e := 1e-6, weight_decay_rate := 0,
        max_grad_norm := -1, cycle_step := none } 0 = lr := by
    rw [lrScheduled, lrSchedNoCycle, if_neg (by norm_num), if_neg (by simp)]
  rw [hlr]
  have hm : (0.9 : ℝ) * 0 + (1 - 0.9) * g = 0.1 * g := by ring_nf
  have hv : (0.999 : ℝ) * 0 + (1 - 0.999) * (g * g) = 0.001 * g ^ 2 := by
    ring_nf
  rw [hm, hv]

/-- C10: with schedule `warmup_fix`, `t_total = -1`, `warmup > 0`, `lr > 0`
and no `cycle_step`, every step with counter `s ≥ 1` gets effective
learning rate `lr * min 1 (s / (warmup * (-1)))`, which is strictly
negative, so the resulting write `old - lr_scheduled * u` moves the
parameter in the direction of a positive update `u` (gradient ascent)
instead of descending. -/
theorem warmup_fix_default_total_negative_lr (lr warmup b1 b2 e wd mgn : ℝ)
    (s : ℕ) (hlr : 0 < lr) (hw : 0 < warmup) (hs : 1 ≤ s) :
    lrScheduled (fixDefaultHyper lr warmup b1 b2 e wd mgn) s
      = lr * min 1.0 ((s : ℝ) / (warmup * (-1))) ∧
    lrScheduled (fixDefaultHyper lr warmup b1 b2 e wd mgn) s < 0 ∧
    (∀ old u : ℝ, 0 < u →
      old < old - lrScheduled (fixDefaultHyper lr warmup b1 b2 e wd mgn) s * u) := by
  have heq : lrScheduled (fixDefaultHyper lr warmup b1 b2 e wd mgn) s
      = lr * min 1.0 ((s : ℝ) / (warmup * (-1))) := by
    rw [lrScheduled, fixDefaultHyper]
    simp only
    rw [lrSchedNoCycle]
    rw [if_neg (by simp), if_pos rfl, warmup_fix]
  have hs1 : (1 : ℝ) ≤ (s : ℝ) := by exact_mod_cast hs
  have hdenneg : warmup * (-1) < 0 := by linarith
  have hfrac : (s : ℝ) / (warmup * (-1)) < 0 :=
    div_neg_of_pos_of_neg (by linarith) hdenneg
  have hmin : min 1.0 ((s : ℝ) / (warmup * (-1))) < 0 :=
    lt_of_le_of_lt (min_le_right _ _) hfrac
  have hneg : lrScheduled (fixDefaultHyper lr warmup b1 b2 e wd mgn) s < 0 := by
    rw [heq]
    exact mul_neg_of_pos_of_neg hlr hmin
  refine ⟨heq, hneg, fun old u hu => ?_⟩
  nlinarith

/-- Witness for `warmup_fix_default_total_negative_lr` at
`lr = 1`, `warmup = 1/2`, step `1`. -/
theorem warmup_fix_default_total_negative_lr_witness :
    lrScheduled (fixDefaultHyper 1 (1/2) 0.9 0.999 1e-6 0.01 1.0) 1 < 0 :=
  (warmup_fix_default_total_negative_lr 1 (1/2) 0.9 0.999 1e-6 0.01 1.0 1
    (by norm_num) (by norm_num) (by norm_num)).2.1

/-- C3: `BERTAdam.__init__` validation succeeds iff every hyperparameter
check passes (`lr ≥ 0` or unset, known schedule name, `warmup ∈ [0,1)` or
`-1`, `b1, b2 ∈ [0,1)`, `e ≥ 0`); nothing is clamped, and each listed bad
value fails with the error naming that value. -/
theorem bertAdamCheck_spec :
    (∀ (lr : Option ℝ) (schedule : String) (warmup b1 b2 e : ℝ),
      bertAdamCheck lr schedule warmup b1 b2 e = .ok () ↔
        ((∀ l : ℝ, lr = some l → l ≥ 0.0) ∧ SCHEDULES schedule ≠ none ∧
         ((0.0 ≤ warmup ∧ warmup < 1.0) ∨ warmup = -1) ∧
         (0.0 ≤ b1 ∧ b1 < 1.0) ∧ (0.0 ≤ b2 ∧ b2 < 1.0) ∧ e ≥ 0.0)) ∧
    bertAdamCheck (some (-1)) "warmup_linear" (-1) 0.9 0.999 1e-6
      = .error (.invalidLr (-1)) ∧
    bertAdamCheck (some 0.001) "bogus" (-1) 0.9 0.999 1e-6
      = .error (.invalidSchedule "bogus") ∧
    bertAdamCheck (some 0.001) "warmup_linear" 1.5 0.9 0.999 1e-6
      = .error (.invalidWarmup 1.5) ∧
    bertAdamCheck (some 0.001) "warmup_linear" (-1) 1.0 0.999 1e-6
      = .error (.invalidB1 1.0) ∧
    bertAdamCheck (some 0.001) "warmup_linear" (-1) 0.9 (-0.1) 1e-6
      = .error (.invalidB2 (-0.1)) ∧
    bertAdamCheck (some 0.001) "warmup_linear" (-1) 0.9 0.999 (-1e-6)
      = .error (.invalidEps (-1e-6)) := by
  have hsl : SCHEDULES "warmup_linear" ≠ none := by simp [SCHEDULES]
  have hrest : ∀ (schedule : String) (warmup b1 b2 e : ℝ),
      bertAdamCheckRest schedule warmup b1 b2 e = .ok () ↔
        (SCHEDULES schedule ≠ none ∧
         ((0.0 ≤ warmup ∧ warmup < 1.0) ∨ warmup = -1) ∧
         (0.0 ≤ b1 ∧ b1 < 1.0) ∧ (0.0 ≤ b2 ∧ b2 < 1.0) ∧ e ≥ 0.0) := by
    intro s w b1 b2 e
    rw [bertAdamCheckRest]
    by_cases h1 : (SCHEDULES s).isNone
    · rw [if_pos h1]
      simp only [Option.isNone_iff_eq_none] at h1
      simp [h1]
    · rw [if_neg h1]
      simp only [Option.isNone_iff_eq_none] at h1
      by_cases h2 : ¬ (0.0 ≤ w ∧ w < 1.0) ∧ ¬ (w = -1)
      · rw [if_pos h2]
        constructor
        · intro h
          exact absurd h (by simp)
        · rintro ⟨-, hw, -⟩
          exact absurd hw (by tauto)
      · rw [if_neg h2]
        by_cases h3 : 0.0 ≤ b1 ∧ b1 < 1.0
        case neg =>
          rw [if_pos h3]
          constructor
          · intro h
            exact absurd h (by simp)
          · rintro ⟨-, -, hb1, -⟩
            exact absurd hb1 h3
        case pos =>
          rw [if_neg (not_not.mpr h3)]
          by_cases h4 : 0.0 ≤ b2 ∧ b2 < 1.0
          case neg =>
            rw [if_pos h4]
            constructor
            · intro h
              exact absurd h (by simp)
            · rintro ⟨-, -, -, hb2, -⟩
              exact absurd hb2 h4
          case pos =>
            rw [if_neg (not_not.mpr h4)]
            by_cases h5 : e ≥ 0.0
            case neg =>
              rw [if_pos h5]
              constructor
              · intro h
                exact absurd h (by simp)
              · rintro ⟨-, -, -, -, he⟩
                exact absurd he h5
            case pos =>
              rw [if_neg (not_not.mpr h5)]
              constructor
              · intro _
                exact ⟨h1, by tauto, h3, h4, h5⟩
              · intro _
                rfl
  refine ⟨fun lr s w b1 b2 e => ?_, ?_, ?_, ?_, ?_, ?_, ?_⟩
  · cases lr with
    | none =>
      rw [bertAdamCheck]
      rw [hrest s w b1 b2 e]
      constructor
      · exact fun hc => ⟨fun l hl => Option.noConfusion hl, hc⟩
      · exact fun hc => hc.2
    | some l =>
      rw [bertAdamCheck]
      by_cases h : l ≥ 0.0
      · rw [if_neg (not_not.mpr h), hrest s w b1 b2 e]
        constructor
        · intro hc
          refine ⟨fun l' hl' => ?_, hc⟩
          cases hl'
          exact h
        · exact fun hc => hc.2
      · rw [if_pos h]
        constructor
        · intro hc
          exact absurd hc (by simp)
        · rintro ⟨hl, -⟩
          exact absurd (hl l rfl) h
  · rw [bertAdamCheck]
    exact if_pos (by norm_num)
  · rw [bertAdamCheck, if_neg (by norm_num), bertAdamCheckRest]
    rw [if_pos (by simp [SCHEDULES])]
  · rw [bertAdamCheck, if_neg (by norm_num), bertAdamCheckRest,
      if_neg (by simpa using hsl), if_pos (by norm_num)]
  · rw [bertAdamCheck, if_neg (by norm_num), bertAdamCheckRest,
      if_neg (by simpa using hsl), if_neg (by norm_num), if_pos (by norm_num)]
  · rw [bertAdamCheck, if_neg (by norm_num), bertAdamCheckRest,
      if_neg (by simpa using hsl), if_neg (by norm_num), if_neg (by norm_num),
      if_pos (by norm_num)]
  · rw [bertAdamCheck, if_neg (by norm_num), bertAdamCheckRest,
      if_neg (by simpa using hsl), if_neg (by norm_num), if_neg (by norm_num),
      if_neg (by norm_num), if_pos (by norm_num)]

/-- Witness for `bertAdamCheck_spec`: validation succeeds on the default
hyperparameters. -/
theorem bertAdamCheck_spec_witness :
    bertAdamCheck (some 0.001) "warmup_linear" (-1) 0.9 0.999 1e-6 = .ok () :=
  (bertAdamCheck_spec.1 (some 0.001) "warmup_linear" (-1) 0.9 0.999 1e-6).mpr
    ⟨by intro l hl; cases hl; norm_num, by simp [SCHEDULES],
     Or.inr rfl, by norm_num, by norm_num, by norm_num⟩

/-- The only error `stepParam` raises is the sparse-gradient message. -/
theorem stepParam_error_msg (g : GroupHyper) (p : ParamEntry) (m : String)
    (h : stepParam g p = .error m) : m = sparseMsg := by
  rw [stepParam] at h
  cases hg : p.grad with
  | none =>
    simp only [hg, reduceCtorEq] at h
  | some gr =>
    simp only [hg] at h
    by_cases hs : gr.is_sparse = true
    · rw [if_pos hs] at h
      simp only [Except.error.injEq] at h
      exact h.symm
    · rw [if_neg hs] at h
      simp only [reduceCtorEq] at h

/-- A parameter without gradient is skipped unchanged. -/
theorem stepParam_none (g : GroupHyper) (p : ParamEntry) (h : p.grad = none) :
    stepParam g p = .ok p := by
  rw [stepParam, h]

/-- A successful `stepParam` on a parameter with a gradient increments its
step counter by exactly 1 and leaves the gradient present. -/
theorem stepParam_succ (g : GroupHyper) (p p' : ParamEntry)
    (hg : p.grad ≠ none) (h : stepParam g p = .ok p') :
    entryStep p' = entryStep p + 1 ∧ p'.grad ≠ none := by
  rw [stepParam] at h
  cases hgr : p.grad with
  | none => exact absurd hgr hg
  | some gr =>
    simp only [hgr] at h
    by_cases hs : gr.is_sparse = true
    · rw [if_pos hs] at h
      simp only [reduceCtorEq] at h
    · rw [if_neg hs] at h
      simp only [Except.ok.injEq] at h
      subst h
      cases hst : p.pstate with
      | none => simp [entryStep, hst]
      | some st => simp [entryStep, hst]

/-- A successful `stepParam` never decreases the step counter. -/
theorem stepParam_mono (g : GroupHyper) (p p' : ParamEntry)
    (h : stepParam g p = .ok p') : entryStep p ≤ entryStep p' := by
  cases hg : p.grad with
  | none =>
    have := stepParam_none g p hg
    rw [h] at this
    simp only [Except.ok.injEq] at this
    rw [this]
  | some gr =>
    have hg' : p.grad ≠ none := by simp [hg]
    have := (stepParam_succ g p p' hg' h).1
    omega

/-- Positional effect of one `stepList` call: every entry stays at its index
with a non-decreased step counter; on an error-free call an entry with a
gradient gets exactly `+1` and one without is returned unchanged. -/
theorem stepList_get (g : GroupHyper) (l : List ParamEntry) (i : ℕ)
    (p : ParamEntry) (hp : l[i]? = some p) :
    ∃ p', (stepList g l).1[i]? = some p' ∧ entryStep p ≤ entryStep p' ∧
      ((stepList g l).2 = none →
        (p.grad ≠ none → entryStep p' = entryStep p + 1) ∧
        (p.grad = none → p' = p)) := by
  induction l generalizing i with
  | nil => simp at hp
  | cons q qs ih =>
    rw [stepList]
    cases he : stepParam g q with
    | error m =>
      simp only [he]
      exact ⟨p, hp, le_rfl, fun hn => absurd hn (by simp)⟩
    | ok q' =>
      simp only [he]
      cases i with
      | zero =>
        simp only [List.getElem?_cons_zero, Option.some.injEq] at hp
        subst hp
        refine ⟨q', by simp, stepParam_mono g q q' he,
          fun _ => ⟨fun hgr => ?_, fun hgr => ?_⟩⟩
        · exact (stepParam_succ g q q' hgr he).1
        · have hq := stepParam_none g q hgr
          rw [he] at hq
          simp only [Except.ok.injEq] at hq
          exact hq
      | succ i =>
        simp only [List.getElem?_cons_succ] at hp ⊢
        exact ih i hp

/-- C7: across one full `BERTAdam.step` call over arbitrary parameter
groups, every parameter's step counter is non-decreasing; when the call
raises no error, a parameter with a gradient is incremented by exactly 1
regardless of the other parameters and groups.  Moreover two consecutive
successful calls on a parameter with a gradient increment its counter by
exactly 1 each time. -/
theorem step_counter_per_param :
    (∀ (gs : List GroupData) (i j : ℕ) (gd : GroupData) (p : ParamEntry),
      gs[i]? = some gd → gd.entries[j]? = some p →
      ∃ gd' p', (stepGroups gs).1[i]? = some gd' ∧ gd'.entries[j]? = some p' ∧
        entryStep p ≤ entryStep p' ∧
        ((stepGroups gs).2 = none → p.grad ≠ none →
          entryStep p' = entryStep p + 1)) ∧
    (∀ (g : GroupHyper) (p p' p'' : ParamEntry), p.grad ≠ none →
      stepParam g p = .ok p' → stepParam g p' = .ok p'' →
      entryStep p' = entryStep p + 1 ∧ entryStep p'' = entryStep p + 2) := by
  constructor
  · intro gs
    induction gs with
    | nil => intro i j gd p hg; simp at hg
    | cons g0 gs ih =>
      intro i j gd p hg hj
      rw [stepGroups]
      cases hsl : (stepList g0.hyper g0.entries).2 with
      | some m =>
        simp only [hsl]
        cases i with
        | zero =>
          simp only [List.getElem?_cons_zero, Option.some.injEq] at hg
          obtain ⟨p', h1, h2, -⟩ := stepList_get g0.hyper g0.entries j p
            (by rw [hg]; exact hj)
          exact ⟨{ g0 with entries := (stepList g0.hyper g0.entries).1 }, p',
            by simp, h1, h2, fun hn => absurd hn (by simp)⟩
        | succ i =>
          simp only [List.getElem?_cons_succ] at hg ⊢
          exact ⟨gd, p, hg, hj, le_rfl, fun hn => absurd hn (by simp)⟩
      | none =>
        simp only [hsl]
        cases i with
        | zero =>
          simp only [List.getElem?_cons_zero, Option.some.injEq] at hg
          obtain ⟨p', h1, h2, h3⟩ := stepList_get g0.hyper g0.entries j p
            (by rw [hg]; exact hj)
          exact ⟨{ g0 with entries := (stepList g0.hyper g0.entries).1 }, p',
            by simp, h1, h2, fun _ hgr => (h3 hsl).1 hgr⟩
        | succ i =>
          simp only [List.getElem?_cons_succ] at hg ⊢
          obtain ⟨gd', p', h1, h2, h3, h4⟩ := ih i j gd p hg hj
          exact ⟨gd', p', h1, h2, h3, h4⟩
  · intro g p p' p'' hg h1 h2
    obtain ⟨hs1, hg'⟩ := stepParam_succ g p p' hg h1
    obtain ⟨hs2, -⟩ := stepParam_succ g p' p'' hg' h2
    omega

/-- Witness for `step_counter_per_param`: a fresh single-parameter group. -/
theorem step_counter_per_param_witness :
    ∃ gd' p',
      (stepGroups [demoGroup]).1[0]? = some gd' ∧
      gd'.entries[0]? = some p' ∧
      entryStep demoEntry ≤ entryStep p' ∧
      ((stepGroups [demoGroup]).2 = none → demoEntry.grad ≠ none →
        entryStep p' = entryStep demoEntry + 1) :=
  step_counter_per_param.1 [demoGroup] 0 0 demoGroup demoEntry (by simp)
    (by simp [demoGroup])

/-- C6: a sparse gradient makes `stepParam` raise the unsupported-operation
error, producing no modified entry; inside a full update call the raising
parameter is reported and its entry (value, moments and step counter) is
still present unmodified in the resulting parameter list. -/
theorem sparse_gradient_error (g : GroupHyper) (p : ParamEntry) (gr : Grad)
    (hg : p.grad = some gr) (hs : gr.is_sparse = true) :
    stepParam g p = .error sparseMsg ∧
    ∀ l : List ParamEntry, p ∈ l →
      (stepList g l).2 = some sparseMsg ∧ p ∈ (stepList g l).1 := by
  have herr : stepParam g p = .error sparseMsg := by
    rw [stepParam, hg]
    exact if_pos hs
  refine ⟨herr, ?_⟩
  intro l
  induction l with
  | nil => intro hl; cases hl
  | cons q qs ih =>
    intro hl
    rw [stepList]
    cases he : stepParam g q with
    | error m =>
      have hm : m = sparseMsg := stepParam_error_msg g q m he
      subst hm
      exact ⟨rfl, hl⟩
    | ok q' =>
      simp only [he]
      rcases List.mem_cons.mp hl with rfl | hq
      · rw [herr] at he
        simp only [reduceCtorEq] at he
      · obtain ⟨h1, h2⟩ := ih hq
        exact ⟨h1, List.mem_cons_of_mem _ h2⟩

/-- Witness for `sparse_gradient_error`: a concrete sparse gradient. -/
theorem sparse_gradient_error_witness :
    stepParam (fixDefaultHyper 1 (1/2) 0.9 0.999 1e-6 0 (-1))
      { data := 0, grad := some { value := 1, is_sparse := true },
        pstate := none } = .error sparseMsg :=
  (sparse_gradient_error (fixDefaultHyper 1 (1/2) 0.9 0.999 1e-6 0 (-1))
    { data := 0, grad := some { value := 1, is_sparse := true }, pstate := none }
    { value := 1, is_sparse := true } rfl rfl).1

/-- C9: `get_optimization` builds exactly two parameter groups — non-matching
names with the given `weight_decay_rate` first, matching (no-decay) names
with `weight_decay_rate` 0 second — and every (pooler-filtered) parameter
lands in exactly one group, decided by the `no_decay` substring predicate. -/
theorem get_optimization_partition {α : Type} (named : List (String × α))
    (weight_decay_rate : ℝ) (opt_pooler : Bool) :
    ∃ g0 g1 : List (String × α),
      get_optimization_groups named weight_decay_rate opt_pooler
        = [(g0, weight_decay_rate), (g1, 0.0)] ∧
      (get_optimization_groups named weight_decay_rate opt_pooler).length = 2 ∧
      ∀ np ∈ (if opt_pooler = false then
                named.filter (fun x => ! hasSub x.1 "pooler")
              else named),
        (noDecayMatch np.1 = false → np ∈ g0 ∧ np ∉ g1) ∧
        (noDecayMatch np.1 = true → np ∈ g1 ∧ np ∉ g0) := by
  refine ⟨_, _, rfl, rfl, ?_⟩
  intro np hnp
  constructor
  · intro h
    refine ⟨List.mem_filter.mpr ⟨hnp, by simp [h]⟩, fun hmem => ?_⟩
    have hpred := (List.mem_filter.mp hmem).2
    rw [h] at hpred
    cases hpred
  · intro h
    refine ⟨List.mem_filter.mpr ⟨hnp, by simp [h]⟩, fun hmem => ?_⟩
    have hpred := (List.mem_filter.mp hmem).2
    rw [h] at hpred
    cases hpred

/-- Witness for `get_optimization_partition`: a bias parameter lands in the
no-decay group and not in the decay group. -/
theorem get_optimization_partition_witness :
    ∃ g0 g1 : List (String × ℕ),
      get_optimization_groups [("layer.weight", 0), ("layer.bias", 1)] 0.01 false
        = [(g0, 0.01), (g1, 0.0)] ∧
      (get_optimization_groups [("layer.weight", 0), ("layer.bias", 1)]
        0.01 false).length = 2 ∧
      (("layer.bias", 1) ∈ g1 ∧ ("layer.bias", 1) ∉ g0) := by
  obtain ⟨g0, g1, heq, hlen, hpart⟩ :=
    get_optimization_partition [("layer.weight", 0), ("layer.bias", 1)] 0.01 false
  exact ⟨g0, g1, heq, hlen, (hpart ("layer.bias", 1) (by decide)).2 (by decide)⟩

end PytorchOptimization
